import Mathlib

/-!
Verification of the NoLeftovers deduplicating merge engine.

The repository contains two implementation variants of the same plugin:
`src/main.ts` (provenance = wikilink `([[sourceFileName]])`, normalizer strips
the first `([[...]])` token) and `src/unnamed/part_000` (provenance =
`(YYYY-MM-DD.md)` date stamp, normalizer strips the first such date token).
Both variants share the same canonicalization tail:
`.trim().replace('- [ ]', '').trim().toLowerCase().replace(/\s+/g, ' ')`.

Strings are modelled on `List Char`; JavaScript `String.prototype.replace`
with a string or non-global regex replaces only the first occurrence, anywhere
in the string, and this is modelled exactly.
-/

namespace NoLeftovers

/-- The JavaScript whitespace class, as used by `trim()` and the `\s` class
(space, tab, line terminators, NBSP, the Unicode space separators, BOM),
tested on the character's code point. -/
def wsNat (n : Nat) : Bool :=
  decide (n = 32) || decide (n = 9) || decide (n = 10) || decide (n = 11) ||
  decide (n = 12) || decide (n = 13) || decide (n = 160) || decide (n = 0x1680) ||
  (decide (0x2000 ≤ n) && decide (n ≤ 0x200a)) || decide (n = 0x2028) ||
  decide (n = 0x2029) || decide (n = 0x202f) || decide (n = 0x205f) ||
  decide (n = 0x3000) || decide (n = 0xfeff)

/-- Whitespace test on characters. -/
def isWs (c : Char) : Bool := wsNat c.toNat

/-- Line terminators, which the JavaScript regex `.` does not match. -/
def isLineTerm (c : Char) : Bool :=
  decide (c.toNat = 10) || decide (c.toNat = 13) || decide (c.toNat = 0x2028) ||
  decide (c.toNat = 0x2029)

/-- JavaScript `trim()`: drop whitespace from both ends. -/
def trimList (l : List Char) : List Char :=
  ((l.dropWhile isWs).reverse.dropWhile isWs).reverse

/-- JavaScript `toLowerCase()` on one character (ASCII range, as `Char.toLower`). -/
def lowerList (l : List Char) : List Char := l.map Char.toLower

/-- JavaScript `replace(/\s+/g, ' ')`: every maximal whitespace run becomes one
space.  The flag records whether the previous character was whitespace. -/
def collapseAux : Bool → List Char → List Char
| _, [] => []
| prevWs, c :: rest =>
  if isWs c then
    if prevWs then collapseAux true rest
    else ' ' :: collapseAux true rest
  else c :: collapseAux false rest

/-- Collapse whitespace runs to single spaces. -/
def collapseWs (l : List Char) : List Char := collapseAux false l

/-- The checkbox marker `- [ ]`. -/
def markerChars : List Char := ['-', ' ', '[', ' ', ']']

/-- First occurrence of the literal `- [ ]` removed, if present
(JavaScript `replace('- [ ]', '')`). -/
def removeMarkerAux : List Char → Option (List Char)
| [] => none
| c :: rest =>
  if c = '-' ∧ rest.take 4 = [' ', '[', ' ', ']'] then some (rest.drop 4)
  else (removeMarkerAux rest).map (fun r => c :: r)

/-- `replace('- [ ]', '')`: remove the first occurrence, no-op when absent. -/
def removeMarker (l : List Char) : List Char := (removeMarkerAux l).getD l

/-- Whether the list contains an occurrence of `- [ ]`. -/
def hasMarker (l : List Char) : Bool := (removeMarkerAux l).isSome

/-- The canonicalization tail shared verbatim by both variants of
`normalizeTask`:
`.trim().replace('- [ ]', '').trim().toLowerCase().replace(/\s+/g, ' ')`. -/
def canonicalizeList (l : List Char) : List Char :=
  collapseWs (lowerList (trimList (removeMarker (trimList l))))

/-- String-level wrapper for the shared canonicalization tail. -/
def canonicalize (s : String) : String := ⟨canonicalizeList s.data⟩

/-- Scan for the lazy close `]])` of the wikilink regex `\(\[\[.*?\]\]\)`;
fails at a line terminator because `.` does not cross those.  Returns the text
after the close. -/
def dropToClose : List Char → Option (List Char)
| ']' :: ']' :: ')' :: rest => some rest
| c :: rest => if isLineTerm c then none else dropToClose rest
| [] => none

/-- First match of `/\(\[\[.*?\]\]\)/` removed: at each position, if the text
starts with `([[` and a close `]])` follows on the same line, that whole token
is the (leftmost, lazy) match; otherwise scanning moves one character right. -/
def stripWlAux : List Char → Option (List Char)
| [] => none
| c :: rest =>
  if c = '(' ∧ rest.take 2 = ['[', '['] then
    match dropToClose (rest.drop 2) with
    | some after => some after
    | none => (stripWlAux rest).map (fun r => c :: r)
  else (stripWlAux rest).map (fun r => c :: r)

/-- `replace(/\(\[\[.*?\]\]\)/, '')`: remove the first wikilink token, no-op
when there is none. -/
def stripWl (l : List Char) : List Char := (stripWlAux l).getD l

/-- Whether the wikilink regex matches somewhere in the list. -/
def hasWlTok (l : List Char) : Bool := (stripWlAux l).isSome

/-- The 14 characters that must follow `(` in a match of
`/\(\d{4}-\d{2}-\d{2}\.md\)/`, namely `YYYY-MM-DD.md)`. -/
def dateBody (l : List Char) : Bool :=
  match l with
  | y1 :: y2 :: y3 :: y4 :: s1 :: m1 :: m2 :: s2 :: d1 :: d2 :: dot :: mc :: dc :: cp :: _ =>
    y1.isDigit && y2.isDigit && y3.isDigit && y4.isDigit && (s1 == '-') &&
    m1.isDigit && m2.isDigit && (s2 == '-') && d1.isDigit && d2.isDigit &&
    (dot == '.') && (mc == 'm') && (dc == 'd') && (cp == ')')
  | _ => false

/-- First match of `/\(\d{4}-\d{2}-\d{2}\.md\)/` removed: leftmost position
where `(` is followed by a well-formed `YYYY-MM-DD.md)` body. -/
def stripDateAux : List Char → Option (List Char)
| [] => none
| c :: rest =>
  if c = '(' ∧ dateBody rest then some (rest.drop 14)
  else (stripDateAux rest).map (fun r => c :: r)

/-- `replace(/\(\d{4}-\d{2}-\d{2}\.md\)/, '')`: remove the first date token,
no-op when there is none. -/
def stripDate (l : List Char) : List Char := (stripDateAux l).getD l

/-- Whether the date regex matches somewhere in the list. -/
def hasDateTok (l : List Char) : Bool := (stripDateAux l).isSome

/-- JavaScript `content.split('\n')`. -/
def splitNl : List Char → List (List Char)
| [] => [[]]
| c :: rest =>
  if c = '\n' then [] :: splitNl rest
  else
    match splitNl rest with
    | [] => [[c]]
    | h :: t => (c :: h) :: t

/-- `line.trim().startsWith('- [ ]')` without the trim (applied by callers). -/
def startsWithMarker (l : List Char) : Bool := l.take 5 == markerChars

/-- JavaScript `array.join('\n')`. -/
def joinNl : List String → String
| [] => ""
| [x] => x
| x :: xs => x ++ "\n" ++ joinNl xs

/-- Result of one merge operation: the engine's decision
(`appendedLines`, `skippedCount`) together with the master document text after
the operation and the number of `vault.append` calls performed. -/
structure MergeResult where
  appendedLines : List String
  skippedCount : Nat
  newDoc : String
  appends : Nat

end NoLeftovers

namespace NoLeftovers.Wikilink

/-- `normalizeTask` of `src/main.ts`: strip the first `([[...]])` token, then
the shared canonicalization tail. -/
def normalizeTask (task : String) : String :=
  ⟨canonicalizeList (stripWl task.data)⟩

/-- `extractExistingTasks` of `src/main.ts`: split on newlines, keep the lines
whose trimmed form starts with `- [ ]`, normalize each. -/
def extractExistingTasks (content : String) : List String :=
  ((splitNl content.data).filter (fun line => startsWithMarker (trimList line))).map
    (fun line => normalizeTask ⟨line⟩)

/-- `isDuplicate` of `src/main.ts`. -/
def isDuplicate (newTask : String) (existingTasks : List String) : Bool :=
  existingTasks.contains (normalizeTask newTask)

/-- The task formatter of `src/main.ts`:
`` `- [ ] ${task.replace('- [ ]', '').trim()} ([[${sourceFileName}]])` ``. -/
def formatTask (sourceFileName : String) (task : String) : String :=
  "- [ ] " ++ (⟨trimList (removeMarker task.data)⟩ : String) ++ " ([[" ++
    sourceFileName ++ "]])"

/-- `const newTasks = tasks.filter(task => !this.isDuplicate(task, existingTasks))`
of `src/main.ts`, with `existingTasks = extractExistingTasks existingContent`. -/
def newTasks (tasks : List String) (existingContent : String) : List String :=
  tasks.filter (fun task => !(isDuplicate task (extractExistingTasks existingContent)))

/-- `appendTasksToMasterFile` of `src/main.ts`, as a pure function of the
master file's current content.  With dedupe on, tasks already in the file are
filtered out against the fixed set of existing keys; if nothing remains the
function returns without appending, otherwise the formatted new tasks plus a
blank line are appended.  With dedupe off everything is appended. -/
def appendTasksToMasterFile (tasks : List String) (sourceFileName : String)
    (enableDedupe : Bool) (existingContent : String) : MergeResult :=
  if enableDedupe then
    if (newTasks tasks existingContent).length = 0 then
      { appendedLines := [], skippedCount := tasks.length,
        newDoc := existingContent, appends := 0 }
    else
      { appendedLines := (newTasks tasks existingContent).map (formatTask sourceFileName),
        skippedCount := tasks.length - (newTasks tasks existingContent).length,
        newDoc := existingContent ++
          (joinNl ((newTasks tasks existingContent).map (formatTask sourceFileName)) ++ "\n\n"),
        appends := 1 }
  else
    { appendedLines := tasks.map (formatTask sourceFileName), skippedCount := 0,
      newDoc := existingContent ++ (joinNl (tasks.map (formatTask sourceFileName)) ++ "\n\n"),
      appends := 1 }

end NoLeftovers.Wikilink

namespace NoLeftovers.DateVariant

/-- `normalizeTask` of `src/unnamed/part_000`: strip the first
`(YYYY-MM-DD.md)` token, then the shared canonicalization tail. -/
def normalizeTask (task : String) : String :=
  ⟨canonicalizeList (stripDate task.data)⟩

/-- `extractExistingTasks` of `src/unnamed/part_000`. -/
def extractExistingTasks (content : String) : List String :=
  ((splitNl content.data).filter (fun line => startsWithMarker (trimList line))).map
    (fun line => normalizeTask ⟨line⟩)

/-- `isDuplicate` of `src/unnamed/part_000`. -/
def isDuplicate (newTask : String) (existingTasks : List String) : Bool :=
  existingTasks.contains (normalizeTask newTask)

/-- The task formatter of `src/unnamed/part_000`:
`` `- [ ] ${task.replace('- [ ]', '').trim()} (${dateStr}.md)` ``. -/
def formatTask (dateStr : String) (task : String) : String :=
  "- [ ] " ++ (⟨trimList (removeMarker task.data)⟩ : String) ++ " (" ++
    dateStr ++ ".md)"

/-- `const newTasks = tasks.filter(task => !this.isDuplicate(task, existingTasks))`
of `src/unnamed/part_000`, with `existingTasks = extractExistingTasks existingContent`. -/
def newTasks (tasks : List String) (existingContent : String) : List String :=
  tasks.filter (fun task => !(isDuplicate task (extractExistingTasks existingContent)))

/-- `appendTasksToMasterFile` of `src/unnamed/part_000`, as a pure function of
the master file's current content; same structure as the wikilink variant but
with the date-stamp provenance. -/
def appendTasksToMasterFile (tasks : List String) (dateStr : String)
    (enableDedupe : Bool) (existingContent : String) : MergeResult :=
  if enableDedupe then
    if (newTasks tasks existingContent).length = 0 then
      { appendedLines := [], skippedCount := tasks.length,
        newDoc := existingContent, appends := 0 }
    else
      { appendedLines := (newTasks tasks existingContent).map (formatTask dateStr),
        skippedCount := tasks.length - (newTasks tasks existingContent).length,
        newDoc := existingContent ++
          (joinNl ((newTasks tasks existingContent).map (formatTask dateStr)) ++ "\n\n"),
        appends := 1 }
  else
    { appendedLines := tasks.map (formatTask dateStr), skippedCount := 0,
      newDoc := existingContent ++ (joinNl (tasks.map (formatTask dateStr)) ++ "\n\n"),
      appends := 1 }

end NoLeftovers.DateVariant

namespace NoLeftovers

lemma toNat_ofNat_lt (n : Nat) (h : n < 55296) : (Char.ofNat n).toNat = n := by
  rw [Char.ofNat, dif_pos (Or.inl h)]
  simp [Char.ofNatAux, Char.toNat, UInt32.ofNat', UInt32.toNat, BitVec.toNat_ofNatLt]

lemma toLower_eq_self {c : Char} (h : ¬(c.toNat ≥ 65 ∧ c.toNat ≤ 90)) :
    c.toLower = c := by
  simp only [Char.toLower]
  rw [if_neg h]

lemma toNat_toLower_upper {c : Char} (h : c.toNat ≥ 65 ∧ c.toNat ≤ 90) :
    (Char.toLower c).toNat = c.toNat + 32 := by
  simp only [Char.toLower]
  rw [if_pos h]
  exact toNat_ofNat_lt _ (by omega)

lemma toLower_idem (c : Char) : c.toLower.toLower = c.toLower := by
  by_cases h : c.toNat ≥ 65 ∧ c.toNat ≤ 90
  · have h2 := toNat_toLower_upper h
    exact toLower_eq_self (by omega)
  · rw [toLower_eq_self h, toLower_eq_self h]

lemma wsNat_eq_false {n : Nat} (h1 : 33 ≤ n) (h2 : n ≤ 159) : wsNat n = false := by
  simp only [wsNat, Bool.or_eq_false_iff, Bool.and_eq_false_iff,
    decide_eq_false_iff_not]
  omega

lemma isWs_toLower (c : Char) : isWs c.toLower = isWs c := by
  by_cases h : c.toNat ≥ 65 ∧ c.toNat ≤ 90
  · rw [isWs, isWs, toNat_toLower_upper h,
      wsNat_eq_false (by omega) (by omega), wsNat_eq_false (by omega) (by omega)]
  · rw [toLower_eq_self h]

lemma isWs_space : isWs ' ' = true := by decide

lemma toLower_space : Char.toLower ' ' = ' ' := by decide

lemma collapseAux_mem {l : List Char} {b : Bool} {c : Char}
    (h : c ∈ collapseAux b l) : c = ' ' ∨ c ∈ l := by
  induction l generalizing b with
  | nil => simp [collapseAux] at h
  | cons d rest ih =>
    rw [collapseAux] at h
    by_cases hw : isWs d
    · rw [if_pos hw] at h
      by_cases hb : b
      · subst hb
        rw [if_pos rfl] at h
        rcases ih h with h1 | h1
        · exact Or.inl h1
        · exact Or.inr (List.mem_cons_of_mem _ h1)
      · simp only [hb, if_neg, Bool.false_eq_true, if_false, List.mem_cons] at h
        rcases h with h1 | h1
        · exact Or.inl h1
        · rcases ih h1 with h2 | h2
          · exact Or.inl h2
          · exact Or.inr (List.mem_cons_of_mem _ h2)
    · rw [if_neg hw] at h
      rcases List.mem_cons.mp h with h1 | h1
      · exact Or.inr (h1 ▸ List.mem_cons_self _ _)
      · rcases ih h1 with h2 | h2
        · exact Or.inl h2
        · exact Or.inr (List.mem_cons_of_mem _ h2)

lemma collapseAux_idem (l : List Char) : ∀ b, collapseAux b (collapseAux b l) = collapseAux b l := by
  induction l with
  | nil => intro b; simp [collapseAux]
  | cons c rest ih =>
    intro b
    by_cases hw : isWs c
    · by_cases hb : b
      · subst hb
        rw [collapseAux, if_pos hw, if_pos rfl, ih]
      · simp only [Bool.not_eq_true] at hb
        subst hb
        rw [collapseAux, if_pos hw]
        simp only [Bool.false_eq_true, if_false]
        rw [collapseAux, if_pos isWs_space]
        simp only [Bool.false_eq_true, if_false]
        rw [ih]
    · rw [collapseAux, if_neg hw, collapseAux, if_neg hw, ih]

lemma collapseAux_getLast {l : List Char} {d : Char}
    (hd : l.getLast? = some d) (hw : isWs d = false) :
    ∀ b, (collapseAux b l).getLast? = some d := by
  induction l with
  | nil => simp at hd
  | cons c rest ih =>
    intro b
    cases rest with
    | nil =>
      simp only [List.getLast?_singleton, Option.some.injEq] at hd
      subst hd
      rw [collapseAux, if_neg (by simp [hw])]
      simp [collapseAux]
    | cons e rest2 =>
      rw [List.getLast?_cons_cons] at hd
      have ihx := ih hd
      rw [collapseAux]
      by_cases hwc : isWs c
      · rw [if_pos hwc]
        by_cases hb : b
        · subst hb
          rw [if_pos rfl]
          exact ihx true
        · simp only [hb, Bool.false_eq_true, if_false]
          have h2 := ihx true
          cases hX : collapseAux true (e :: rest2) with
          | nil => rw [hX] at h2; simp at h2
          | cons y Y =>
            rw [hX] at h2
            rw [List.getLast?_cons_cons]
            exact h2
      · rw [if_neg hwc]
        have h2 := ihx false
        cases hX : collapseAux false (e :: rest2) with
        | nil => rw [hX] at h2; simp at h2
        | cons y Y =>
          rw [hX] at h2
          rw [List.getLast?_cons_cons]
          exact h2

end NoLeftovers

namespace NoLeftovers

lemma dropWhile_head_false {p : Char → Bool} {l : List Char} {c : Char}
    {rest : List Char} (h : l.dropWhile p = c :: rest) : p c = false := by
  induction l with
  | nil => simp at h
  | cons a l ih =>
    rw [List.dropWhile_cons] at h
    split at h
    · exact ih h
    · cases h
      simp_all

lemma dropWhile_eq_self {p : Char → Bool} {l : List Char}
    (h : ∀ c, l.head? = some c → p c = false) : l.dropWhile p = l := by
  cases l with
  | nil => simp
  | cons c rest =>
    rw [List.dropWhile_cons, if_neg]
    simp [h c rfl]

lemma map_id_of_fix {f : Char → Char} {l : List Char}
    (h : ∀ c ∈ l, f c = c) : l.map f = l := by
  induction l with
  | nil => simp
  | cons c rest ih =>
    simp only [List.map_cons, h c (List.mem_cons_self _ _),
      ih (fun d hd => h d (List.mem_cons_of_mem _ hd))]

lemma trimList_head {l : List Char} {c : Char}
    (h : (trimList l).head? = some c) : isWs c = false := by
  unfold trimList at h
  rw [List.head?_reverse] at h
  have hsuf := List.dropWhile_suffix (l := (l.dropWhile isWs).reverse) isWs
  obtain ⟨t, ht⟩ := hsuf
  have hCne : (l.dropWhile isWs).reverse.dropWhile isWs ≠ [] := by
    intro hnil
    rw [hnil] at h
    simp at h
  have h2 : ((l.dropWhile isWs).reverse).getLast? = some c := by
    rw [← ht, List.getLast?_append_of_ne_nil _ hCne]
    exact h
  rw [List.getLast?_reverse] at h2
  cases hA : l.dropWhile isWs with
  | nil => rw [hA] at h2; simp at h2
  | cons a rest =>
    rw [hA] at h2
    simp only [List.head?_cons, Option.some.injEq] at h2
    subst h2
    exact dropWhile_head_false hA

lemma trimList_getLast {l : List Char} {c : Char}
    (h : (trimList l).getLast? = some c) : isWs c = false := by
  unfold trimList at h
  rw [List.getLast?_reverse] at h
  cases hC : (l.dropWhile isWs).reverse.dropWhile isWs with
  | nil => rw [hC] at h; simp at h
  | cons a rest =>
    rw [hC] at h
    simp only [List.head?_cons, Option.some.injEq] at h
    subst h
    exact dropWhile_head_false hC

lemma trimList_eq_self {l : List Char}
    (h1 : ∀ c, l.head? = some c → isWs c = false)
    (h2 : ∀ c, l.getLast? = some c → isWs c = false) : trimList l = l := by
  unfold trimList
  rw [dropWhile_eq_self h1]
  rw [dropWhile_eq_self (fun c hc => h2 c (by rwa [List.head?_reverse] at hc))]
  exact List.reverse_reverse l

lemma trim_canonical (l : List Char) :
    trimList (canonicalizeList l) = canonicalizeList l := by
  apply trimList_eq_self
  · intro c hc
    unfold canonicalizeList collapseWs at hc
    cases hT : trimList (removeMarker (trimList l)) with
    | nil => rw [hT] at hc; simp [lowerList, collapseAux] at hc
    | cons d0 r0 =>
      have hd0 : isWs d0 = false := trimList_head (by rw [hT]; rfl)
      rw [hT] at hc
      simp only [lowerList, List.map_cons] at hc
      rw [collapseAux, if_neg (by simp [isWs_toLower, hd0])] at hc
      simp only [List.head?_cons, Option.some.injEq] at hc
      subst hc
      rw [isWs_toLower]
      exact hd0
  · intro c hc
    unfold canonicalizeList collapseWs at hc
    cases hX : (lowerList (trimList (removeMarker (trimList l)))).getLast? with
    | none =>
      rw [List.getLast?_eq_none_iff] at hX
      rw [hX] at hc
      simp [collapseAux] at hc
    | some d =>
      have hd : isWs d = false := by
        unfold lowerList at hX
        rw [List.getLast?_map] at hX
        cases hT : (trimList (removeMarker (trimList l))).getLast? with
        | none => rw [hT] at hX; simp at hX
        | some d0 =>
          rw [hT] at hX
          simp only [Option.map_some', Option.some.injEq] at hX
          subst hX
          rw [isWs_toLower]
          exact trimList_getLast hT
      rw [collapseAux_getLast hX hd false] at hc
      cases hc
      exact hd

lemma lower_canonical (l : List Char) :
    lowerList (canonicalizeList l) = canonicalizeList l := by
  apply map_id_of_fix
  intro c hc
  unfold canonicalizeList collapseWs at hc
  rcases collapseAux_mem hc with rfl | hmem
  · exact toLower_space
  · unfold lowerList at hmem
    rcases List.mem_map.mp hmem with ⟨c0, _, rfl⟩
    exact toLower_idem c0

lemma collapse_canonical (l : List Char) :
    collapseWs (canonicalizeList l) = canonicalizeList l := by
  unfold canonicalizeList collapseWs
  exact collapseAux_idem _ false

lemma removeMarker_eq_self {l : List Char} (h : hasMarker l = false) :
    removeMarker l = l := by
  unfold hasMarker at h
  unfold removeMarker
  cases hA : removeMarkerAux l with
  | none => rfl
  | some r => rw [hA] at h; simp at h

lemma stripWl_eq_self {l : List Char} (h : hasWlTok l = false) :
    stripWl l = l := by
  unfold hasWlTok at h
  unfold stripWl
  cases hA : stripWlAux l with
  | none => rfl
  | some r => rw [hA] at h; simp at h

lemma stripDate_eq_self {l : List Char} (h : hasDateTok l = false) :
    stripDate l = l := by
  unfold hasDateTok at h
  unfold stripDate
  cases hA : stripDateAux l with
  | none => rfl
  | some r => rw [hA] at h; simp at h

lemma canonicalizeList_idem {l : List Char}
    (hm : hasMarker (canonicalizeList l) = false) :
    canonicalizeList (canonicalizeList l) = canonicalizeList l := by
  conv_lhs => rw [canonicalizeList]
  rw [trim_canonical, removeMarker_eq_self hm, trim_canonical, lower_canonical]
  exact collapse_canonical l

end NoLeftovers

namespace NoLeftovers

lemma stripWlAux_append {u : List Char} (hu : ∀ c ∈ u, c ≠ '(') (v : List Char) :
    stripWlAux (u ++ '(' :: '[' :: '[' :: 's' :: 'r' :: 'c' :: ']' :: ']' :: ')' :: v)
      = some (u ++ v) := by
  induction u with
  | nil => rfl
  | cons c u ih =>
    have hc : c ≠ '(' := hu c (List.mem_cons_self _ _)
    rw [List.cons_append, stripWlAux, if_neg (fun hcon => hc hcon.1),
      ih (fun d hd => hu d (List.mem_cons_of_mem _ hd))]
    rfl

lemma stripDateAux_append {u : List Char} (hu : ∀ c ∈ u, c ≠ '(') (v : List Char) :
    stripDateAux (u ++ '(' :: '2' :: '0' :: '2' :: '5' :: '-' :: '0' :: '9' :: '-' ::
        '1' :: '0' :: '.' :: 'm' :: 'd' :: ')' :: v)
      = some (u ++ v) := by
  induction u with
  | nil => rfl
  | cons c u ih =>
    have hc : c ≠ '(' := hu c (List.mem_cons_self _ _)
    rw [List.cons_append, stripDateAux, if_neg (fun hcon => hc hcon.1),
      ih (fun d hd => hu d (List.mem_cons_of_mem _ hd))]
    rfl

end NoLeftovers

namespace NoLeftovers

/-- C1: the claim says a batch with two tasks normalizing to the same key
yields exactly one appended line, the later occurrence being skipped even when
the key is absent from the document.  The code filters the batch only against
the fixed set of keys already in the document, so a within-batch duplicate of
a key absent from the document is appended twice, in both variants.  This
theorem evaluates the code at the failing input: the key of `- [ ] a` is
absent from the existing document, yet both occurrences are appended and none
is skipped. -/
theorem C1_within_batch_duplicate_appended_twice :
    DateVariant.extractExistingTasks "# No Leftovers\n\n" = [] ∧
    (DateVariant.appendTasksToMasterFile ["- [ ] a", "- [ ] a"] "2025-09-12" true
        "# No Leftovers\n\n").appendedLines
      = ["- [ ] a (2025-09-12.md)", "- [ ] a (2025-09-12.md)"] ∧
    (DateVariant.appendTasksToMasterFile ["- [ ] a", "- [ ] a"] "2025-09-12" true
        "# No Leftovers\n\n").skippedCount = 0 ∧
    (Wikilink.appendTasksToMasterFile ["- [ ] a", "- [ ] a"] "Journal" true
        "# No Leftovers\n\n").appendedLines
      = ["- [ ] a ([[Journal]])", "- [ ] a ([[Journal]])"] :=
  ⟨rfl, rfl, rfl, rfl⟩

/-- C2 counterexample: neither variant's normalizer strips both provenance
shapes.  The wikilink variant leaves a date token in place and the date
variant leaves a wikilink token in place, so the claimed three-way equality
fails in each variant at the claim's own example. -/
theorem C2_counterexample :
    Wikilink.normalizeTask "- [ ] Ping vendor (2025-09-10.md)"
      ≠ Wikilink.normalizeTask "- [ ] ping vendor" ∧
    DateVariant.normalizeTask "- [ ] Ping vendor ([[2025-09-10]])"
      ≠ DateVariant.normalizeTask "- [ ] ping vendor" := by
  constructor
  · decide
  · decide

/-- C2 amended: each variant's normalizer strips exactly its own provenance
shape.  The wikilink variant identifies the wikilink-suffixed line with the
bare line, and the date variant identifies the date-suffixed line with the
bare line; under the opposite variant the foreign token survives into the
canonical key. -/
theorem C2_amended_own_shape_equivalence :
    Wikilink.normalizeTask "- [ ] Ping vendor ([[2025-09-10]])"
      = Wikilink.normalizeTask "- [ ] ping vendor" ∧
    DateVariant.normalizeTask "- [ ] Ping vendor (2025-09-10.md)"
      = DateVariant.normalizeTask "- [ ] ping vendor" ∧
    Wikilink.normalizeTask "- [ ] Ping vendor (2025-09-10.md)"
      = "ping vendor (2025-09-10.md)" ∧
    DateVariant.normalizeTask "- [ ] Ping vendor ([[2025-09-10]])"
      = "ping vendor ([[2025-09-10]])" :=
  ⟨rfl, rfl, rfl, rfl⟩

/-- C3 counterexample: provenance removal is not suffix-only.  In each
variant a provenance-shaped token occurring only in the interior of the line
is stripped by the normalizer instead of being left in place. -/
theorem C3_counterexample :
    Wikilink.normalizeTask "- [ ] check ([[x]]) soon" = "check soon" ∧
    Wikilink.normalizeTask "- [ ] check ([[x]]) soon" ≠ "check ([[x]]) soon" ∧
    DateVariant.normalizeTask "- [ ] pay (2025-01-01.md) bill" = "pay bill" ∧
    DateVariant.normalizeTask "- [ ] pay (2025-01-01.md) bill" ≠ "pay (2025-01-01.md) bill" := by
  refine ⟨rfl, ?_, rfl, ?_⟩
  · decide
  · decide

/-- C3 amended: provenance removal strips the first occurrence of the token
anywhere in the line, interior included, not only at the end.  For any text
`u` containing no opening parenthesis (so the token in question is the first
match) and any tail `v`, normalizing `u ++ token ++ v` removes the token and
canonicalizes the remaining `u ++ v`, in the respective variant. -/
theorem C3_amended_first_occurrence_stripped (u v : String)
    (hu : ∀ c ∈ u.data, c ≠ '(') :
    Wikilink.normalizeTask (u ++ "([[src]])" ++ v) = canonicalize (u ++ v) ∧
    DateVariant.normalizeTask (u ++ "(2025-09-10.md)" ++ v) = canonicalize (u ++ v) := by
  have hW : stripWl (u ++ "([[src]])" ++ v).data = (u ++ v).data := by
    have hdata : (u ++ "([[src]])" ++ v).data
        = u.data ++ '(' :: '[' :: '[' :: 's' :: 'r' :: 'c' :: ']' :: ']' :: ')' :: v.data := by
      rw [String.data_append, String.data_append, List.append_assoc]
      rfl
    rw [stripWl, hdata, stripWlAux_append hu v.data, Option.getD_some,
      String.data_append]
  have hD : stripDate (u ++ "(2025-09-10.md)" ++ v).data = (u ++ v).data := by
    have hdata : (u ++ "(2025-09-10.md)" ++ v).data
        = u.data ++ '(' :: '2' :: '0' :: '2' :: '5' :: '-' :: '0' :: '9' :: '-' ::
            '1' :: '0' :: '.' :: 'm' :: 'd' :: ')' :: v.data := by
      rw [String.data_append, String.data_append, List.append_assoc]
      rfl
    rw [stripDate, hdata, stripDateAux_append hu v.data, Option.getD_some,
      String.data_append]
  exact ⟨congrArg (fun l => (⟨canonicalizeList l⟩ : String)) hW,
    congrArg (fun l => (⟨canonicalizeList l⟩ : String)) hD⟩

/-- Witness for the amended C3 theorem at a concrete input. -/
theorem C3_amended_first_occurrence_stripped_witness :
    (∀ c ∈ ("check " : String).data, c ≠ '(') ∧
    Wikilink.normalizeTask ("check " ++ "([[src]])" ++ " soon")
      = canonicalize ("check " ++ " soon") ∧
    DateVariant.normalizeTask ("check " ++ "(2025-09-10.md)" ++ " soon")
      = canonicalize ("check " ++ " soon") := by
  refine ⟨by decide, ?_, ?_⟩
  · exact (C3_amended_first_occurrence_stripped "check " " soon" (by decide)).1
  · exact (C3_amended_first_occurrence_stripped "check " " soon" (by decide)).2

end NoLeftovers

namespace NoLeftovers

/-- C4: end-to-end scenario of the date variant: with the given existing
document and batch and dedupe on, the `Email vendor` task is recognized as a
duplicate of the existing `email vendor (2025-09-09.md)` line despite case and
provenance differences, and exactly one line, `- [ ] File taxes (<today>.md)`,
is appended, with exactly one task skipped. -/
theorem C4_end_to_end_scenario (today : String) :
    (DateVariant.appendTasksToMasterFile ["- [ ] Email vendor", "- [ ] File taxes"]
        today true "# No Leftovers\n\n- [ ] email vendor (2025-09-09.md)\n").appendedLines
      = ["- [ ] File taxes (" ++ today ++ ".md)"] ∧
    (DateVariant.appendTasksToMasterFile ["- [ ] Email vendor", "- [ ] File taxes"]
        today true "# No Leftovers\n\n- [ ] email vendor (2025-09-09.md)\n").skippedCount
      = 1 := by
  constructor
  · rfl
  · rfl

end NoLeftovers

namespace NoLeftovers

/-- C5 counterexample: normalization is not idempotent on every canonical
output.  The canonical key of `- [ ] a ([[x]]) ([[y]])` under the wikilink
variant is `a ([[y]])` (only the first token is stripped), and re-normalizing
it strips the surviving token, giving `a`; similarly for the date variant. -/
theorem C5_counterexample :
    Wikilink.normalizeTask "- [ ] a ([[x]]) ([[y]])" = "a ([[y]])" ∧
    Wikilink.normalizeTask "a ([[y]])" ≠ "a ([[y]])" ∧
    DateVariant.normalizeTask "- [ ] a (2025-01-01.md) (2025-02-02.md)"
      = "a (2025-02-02.md)" ∧
    DateVariant.normalizeTask "a (2025-02-02.md)" ≠ "a (2025-02-02.md)" := by
  refine ⟨rfl, ?_, rfl, ?_⟩
  · decide
  · decide

/-- C5 amended: re-normalizing a canonical key is a no-op provided the key
retains no provenance-shaped token (wikilink or date) and no checkbox-marker
substring; being trimmed, lower-case and whitespace-collapsed already holds
for every canonical output.  Both variants' normalizers fix such keys. -/
theorem C5_amended_renormalize_fixed (x canon : String)
    (hc : canon = Wikilink.normalizeTask x)
    (h1 : hasWlTok canon.data = false)
    (h2 : hasDateTok canon.data = false)
    (h3 : hasMarker canon.data = false) :
    Wikilink.normalizeTask canon = canon ∧ DateVariant.normalizeTask canon = canon := by
  have hdat : canon.data = canonicalizeList (stripWl x.data) := by
    rw [hc]
    rfl
  have hm : hasMarker (canonicalizeList (stripWl x.data)) = false := by
    rw [← hdat]
    exact h3
  have hfix : canonicalizeList canon.data = canon.data := by
    rw [hdat]
    exact canonicalizeList_idem hm
  constructor
  · show (⟨canonicalizeList (stripWl canon.data)⟩ : String) = canon
    rw [stripWl_eq_self h1, hfix]
  · show (⟨canonicalizeList (stripDate canon.data)⟩ : String) = canon
    rw [stripDate_eq_self h2, hfix]

/-- Witness for the amended C5 theorem at a concrete input. -/
theorem C5_amended_renormalize_fixed_witness :
    (("call bob" : String) = Wikilink.normalizeTask "- [ ] Call  Bob ([[n]])") ∧
    hasWlTok ("call bob" : String).data = false ∧
    hasDateTok ("call bob" : String).data = false ∧
    hasMarker ("call bob" : String).data = false ∧
    Wikilink.normalizeTask "call bob" = "call bob" ∧
    DateVariant.normalizeTask "call bob" = "call bob" := by
  refine ⟨rfl, rfl, rfl, rfl, ?_, ?_⟩
  · exact (C5_amended_renormalize_fixed "- [ ] Call  Bob ([[n]])" "call bob"
      rfl rfl rfl rfl).1
  · exact (C5_amended_renormalize_fixed "- [ ] Call  Bob ([[n]])" "call bob"
      rfl rfl rfl rfl).2

end NoLeftovers

namespace NoLeftovers

/-- C6: every merge operation is append-only: for every prior document text
and every batch, in both variants, the resulting document extends the prior
text (which is left unchanged as an initial segment), and at most one append
is performed per operation. -/
theorem C6_append_only (tasks : List String) (src dateStr : String) (dd : Bool)
    (existing : String) :
    (∃ s, (Wikilink.appendTasksToMasterFile tasks src dd existing).newDoc
        = existing ++ s) ∧
    (Wikilink.appendTasksToMasterFile tasks src dd existing).appends ≤ 1 ∧
    (∃ s, (DateVariant.appendTasksToMasterFile tasks dateStr dd existing).newDoc
        = existing ++ s) ∧
    (DateVariant.appendTasksToMasterFile tasks dateStr dd existing).appends ≤ 1 := by
  refine ⟨?_, ?_, ?_, ?_⟩
  · unfold Wikilink.appendTasksToMasterFile
    cases dd
    · exact ⟨_, rfl⟩
    · split
      · split
        · exact ⟨"", (String.append_empty existing).symm⟩
        · exact ⟨_, rfl⟩
      · exact ⟨_, rfl⟩
  · unfold Wikilink.appendTasksToMasterFile
    cases dd
    · exact Nat.le_refl 1
    · split
      · split
        · exact Nat.zero_le 1
        · exact Nat.le_refl 1
      · exact Nat.le_refl 1
  · unfold DateVariant.appendTasksToMasterFile
    cases dd
    · exact ⟨_, rfl⟩
    · split
      · split
        · exact ⟨"", (String.append_empty existing).symm⟩
        · exact ⟨_, rfl⟩
      · exact ⟨_, rfl⟩
  · unfold DateVariant.appendTasksToMasterFile
    cases dd
    · exact Nat.le_refl 1
    · split
      · split
        · exact Nat.zero_le 1
        · exact Nat.le_refl 1
      · exact Nat.le_refl 1

end NoLeftovers

namespace NoLeftovers

/-- C7: with dedupe enabled, when every task in a non-empty batch is a
duplicate of an existing task, the operation is not an error: in both
variants no line is appended, the master document is left unchanged, and no
write occurs. -/
theorem C7_all_duplicates_nothing_written (tasks : List String)
    (src dateStr existing : String) (hne : tasks ≠ [])
    (h1 : ∀ t ∈ tasks, Wikilink.isDuplicate t (Wikilink.extractExistingTasks existing) = true)
    (h2 : ∀ t ∈ tasks, DateVariant.isDuplicate t (DateVariant.extractExistingTasks existing) = true) :
    (Wikilink.appendTasksToMasterFile tasks src true existing).appendedLines = [] ∧
    (Wikilink.appendTasksToMasterFile tasks src true existing).newDoc = existing ∧
    (Wikilink.appendTasksToMasterFile tasks src true existing).appends = 0 ∧
    (DateVariant.appendTasksToMasterFile tasks dateStr true existing).appendedLines = [] ∧
    (DateVariant.appendTasksToMasterFile tasks dateStr true existing).newDoc = existing ∧
    (DateVariant.appendTasksToMasterFile tasks dateStr true existing).appends = 0 := by
  have hf1 : Wikilink.newTasks tasks existing = [] := by
    rw [Wikilink.newTasks, List.filter_eq_nil_iff]
    intro t ht
    simp [h1 t ht]
  have hf2 : DateVariant.newTasks tasks existing = [] := by
    rw [DateVariant.newTasks, List.filter_eq_nil_iff]
    intro t ht
    simp [h2 t ht]
  refine ⟨?_, ?_, ?_, ?_, ?_, ?_⟩ <;>
    simp [Wikilink.appendTasksToMasterFile, DateVariant.appendTasksToMasterFile,
      hf1, hf2]

/-- Witness for the C7 theorem at a concrete input. -/
theorem C7_all_duplicates_nothing_written_witness :
    (["- [ ] email vendor"] ≠ ([] : List String)) ∧
    (∀ t ∈ ["- [ ] email vendor"],
      Wikilink.isDuplicate t
        (Wikilink.extractExistingTasks "# No Leftovers\n\n- [ ] Email  vendor\n") = true) ∧
    (∀ t ∈ ["- [ ] email vendor"],
      DateVariant.isDuplicate t
        (DateVariant.extractExistingTasks "# No Leftovers\n\n- [ ] Email  vendor\n") = true) ∧
    (Wikilink.appendTasksToMasterFile ["- [ ] email vendor"] "N" true
      "# No Leftovers\n\n- [ ] Email  vendor\n").appendedLines = [] ∧
    (DateVariant.appendTasksToMasterFile ["- [ ] email vendor"] "2025-09-12" true
      "# No Leftovers\n\n- [ ] Email  vendor\n").newDoc
      = "# No Leftovers\n\n- [ ] Email  vendor\n" := by
  refine ⟨by decide, by decide, by decide, ?_, ?_⟩
  · exact (C7_all_duplicates_nothing_written ["- [ ] email vendor"] "N" "2025-09-12"
      "# No Leftovers\n\n- [ ] Email  vendor\n" (by decide) (by decide) (by decide)).1
  · exact (C7_all_duplicates_nothing_written ["- [ ] email vendor"] "N" "2025-09-12"
      "# No Leftovers\n\n- [ ] Email  vendor\n" (by decide) (by decide) (by decide)).2.2.2.2.1

/-- C8: with dedupe disabled, in both variants, every task in the batch is
formatted with the provenance suffix and appended in batch order, the number
of appended lines equals the batch length, and the skipped count is zero,
regardless of the existing document content. -/
theorem C8_dedupe_disabled_passthrough (tasks : List String)
    (src dateStr existing : String) :
    (Wikilink.appendTasksToMasterFile tasks src false existing).appendedLines
      = tasks.map (Wikilink.formatTask src) ∧
    (Wikilink.appendTasksToMasterFile tasks src false existing).appendedLines.length
      = tasks.length ∧
    (Wikilink.appendTasksToMasterFile tasks src false existing).skippedCount = 0 ∧
    (DateVariant.appendTasksToMasterFile tasks dateStr false existing).appendedLines
      = tasks.map (DateVariant.formatTask dateStr) ∧
    (DateVariant.appendTasksToMasterFile tasks dateStr false existing).appendedLines.length
      = tasks.length ∧
    (DateVariant.appendTasksToMasterFile tasks dateStr false existing).skippedCount = 0 := by
  refine ⟨rfl, ?_, rfl, rfl, ?_, rfl⟩
  · exact List.length_map tasks (Wikilink.formatTask src)
  · exact List.length_map tasks (DateVariant.formatTask dateStr)

/-- C9: the two variants' normalizers agree on every input containing neither
a wikilink token nor a date token: with both strip steps a no-op, the shared
canonicalization tail gives identical canonical keys. -/
theorem C9_variants_agree_without_tokens (s : String)
    (h1 : hasWlTok s.data = false) (h2 : hasDateTok s.data = false) :
    Wikilink.normalizeTask s = DateVariant.normalizeTask s := by
  show (⟨canonicalizeList (stripWl s.data)⟩ : String)
    = ⟨canonicalizeList (stripDate s.data)⟩
  rw [stripWl_eq_self h1, stripDate_eq_self h2]

/-- Witness for the C9 theorem at a concrete input. -/
theorem C9_variants_agree_without_tokens_witness :
    hasWlTok ("- [ ] Call Bob" : String).data = false ∧
    hasDateTok ("- [ ] Call Bob" : String).data = false ∧
    Wikilink.normalizeTask "- [ ] Call Bob" = DateVariant.normalizeTask "- [ ] Call Bob" :=
  ⟨rfl, rfl, C9_variants_agree_without_tokens "- [ ] Call Bob" rfl rfl⟩

/-- C10: the formatter attaches the operation's provenance suffix
unconditionally: every appended line is `- [ ] ` followed by the raw task with
its first `- [ ]` occurrence removed and trimmed, followed by the
parenthesized provenance; in particular a raw task already carrying a
provenance token is appended with both the old and the new suffix. -/
theorem C10_formatter_attaches_suffix_unconditionally (tasks : List String)
    (src dateStr existing : String) (dd : Bool) (l1 l2 : String)
    (hm1 : l1 ∈ (Wikilink.appendTasksToMasterFile tasks src dd existing).appendedLines)
    (hm2 : l2 ∈ (DateVariant.appendTasksToMasterFile tasks dateStr dd existing).appendedLines) :
    (∃ t, t ∈ tasks ∧ l1 = "- [ ] " ++ (⟨trimList (removeMarker t.data)⟩ : String)
        ++ " ([[" ++ src ++ "]])") ∧
    (∃ t, t ∈ tasks ∧ l2 = "- [ ] " ++ (⟨trimList (removeMarker t.data)⟩ : String)
        ++ " (" ++ dateStr ++ ".md)") ∧
    DateVariant.formatTask "2025-09-11" "- [ ] pay rent (2025-09-10.md)"
      = "- [ ] pay rent (2025-09-10.md) (2025-09-11.md)" := by
  refine ⟨?_, ?_, rfl⟩
  · unfold Wikilink.appendTasksToMasterFile at hm1
    split at hm1
    · split at hm1
      · simp at hm1
      · rcases List.mem_map.mp hm1 with ⟨t, htf, rfl⟩
        exact ⟨t, List.mem_of_mem_filter htf, rfl⟩
    · rcases List.mem_map.mp hm1 with ⟨t, ht, rfl⟩
      exact ⟨t, ht, rfl⟩
  · unfold DateVariant.appendTasksToMasterFile at hm2
    split at hm2
    · split at hm2
      · simp at hm2
      · rcases List.mem_map.mp hm2 with ⟨t, htf, rfl⟩
        exact ⟨t, List.mem_of_mem_filter htf, rfl⟩
    · rcases List.mem_map.mp hm2 with ⟨t, ht, rfl⟩
      exact ⟨t, ht, rfl⟩

/-- Witness for the C10 theorem at a concrete input. -/
theorem C10_formatter_attaches_suffix_unconditionally_witness :
    ("- [ ] t ([[N]])"
      ∈ (Wikilink.appendTasksToMasterFile ["- [ ] t"] "N" false "").appendedLines) ∧
    ("- [ ] t (2025-09-12.md)"
      ∈ (DateVariant.appendTasksToMasterFile ["- [ ] t"] "2025-09-12" false "").appendedLines) ∧
    (∃ t, t ∈ ["- [ ] t"] ∧ ("- [ ] t ([[N]])" : String)
        = "- [ ] " ++ (⟨trimList (removeMarker t.data)⟩ : String) ++ " ([[" ++ "N" ++ "]])") := by
  refine ⟨by decide, by decide, ?_⟩
  exact (C10_formatter_attaches_suffix_unconditionally ["- [ ] t"] "N" "2025-09-12" ""
    false "- [ ] t ([[N]])" "- [ ] t (2025-09-12.md)" (by decide) (by decide)).1

end NoLeftovers
